import Mathlib

/-!
Verification of the horoscope API server (src/server.js).

The development shallowly embeds the server's core logic:

* the proleptic Gregorian calendar arithmetic that backs the JavaScript
  `Date` object (ECMA-262 fixes the day-number to civil-date
  correspondence; the server's date strings are interpreted at UTC
  midnight, the deterministic reading singled out by the spec), and the
  `getWeekStart` function built on it;
* the request-handling logic of the three routes
  (`POST /api/horoscopes`, `GET /api/horoscopes/:signId`,
  `GET /api/horoscopes`), with each MongoDB collection modelled as a
  list of records and `updateOne`/`findOne`/`find` modelled as the
  corresponding list operations.

All definitions are executable, so witnesses evaluate on concrete input.
-/

namespace Horoscope

/-! ## Calendar dates

A calendar date, as carried by the ISO `YYYY-MM-DD` strings the server
exchanges.  `daysFromCivil`/`civilFromDays` convert between a civil date
and its day number (days since 1970-01-01, the JavaScript epoch); they
implement the standard era-based Gregorian algorithms, which agree with
ECMA-262's `MakeDay`/date-from-time semantics.  All divisions are Lean's
`Int` divisions, which round toward negative infinity for the positive
literal divisors used here, exactly the flooring the algorithms need.
-/

structure Date where
  year : Int
  month : Int
  day : Int
deriving DecidableEq, Repr

def isLeap (y : Int) : Bool :=
  (y % 4 == 0 && y % 100 != 0) || y % 400 == 0

def daysInMonth (y m : Int) : Int :=
  if m = 2 then (if isLeap y then 29 else 28)
  else if m = 4 ∨ m = 6 ∨ m = 9 ∨ m = 11 then 30
  else 31

def Date.valid (d : Date) : Prop :=
  1 ≤ d.month ∧ d.month ≤ 12 ∧ 1 ≤ d.day ∧ d.day ≤ daysInMonth d.year d.month

instance (d : Date) : Decidable d.valid := by
  unfold Date.valid; infer_instance

/-- Year used for day-number purposes: January and February count with the
previous year (era years run March to February). -/
def dfcYAdj (y m : Int) : Int := if m ≤ 2 then y - 1 else y

/-- 400-year era of a civil date. -/
def dfcEra (y m : Int) : Int := dfcYAdj y m / 400

/-- Year of era (0..399) of a civil date. -/
def dfcYoe (y m : Int) : Int := dfcYAdj y m - dfcEra y m * 400

/-- Day of the March-based year (0..365) of a civil date. -/
def dfcDoy (m d : Int) : Int := (153 * ((m + 9) % 12) + 2) / 5 + d - 1

/-- Day of era (0..146096) of a civil date. -/
def dfcDoe (y m d : Int) : Int :=
  dfcYoe y m * 365 + dfcYoe y m / 4 - dfcYoe y m / 100 + dfcDoy m d

/-- Day number (days since 1970-01-01) of a civil date. -/
def daysFromCivil (y m d : Int) : Int :=
  dfcEra y m * 146097 + dfcDoe y m d - 719468

/-- 400-year era containing day number `z`. -/
def eraOfDays (z : Int) : Int := (z + 719468) / 146097

/-- Day of era (0..146096) of day number `z`. -/
def doeOfDays (z : Int) : Int := (z + 719468) - eraOfDays z * 146097

/-- Year of era (0..399) from a day of era. -/
def yoeOfDoe (doe : Int) : Int :=
  (doe - doe / 1460 + doe / 36524 - doe / 146096) / 365

/-- Day of the March-based year (0..365) from a day of era. -/
def doyOfDoe (doe : Int) : Int :=
  doe - (365 * yoeOfDoe doe + yoeOfDoe doe / 4 - yoeOfDoe doe / 100)

/-- March-based month index (0..11) from a day of year. -/
def mpOfDoy (doy : Int) : Int := (5 * doy + 2) / 153

def cfdMp (z : Int) : Int := mpOfDoy (doyOfDoe (doeOfDays z))

def cfdMonth (z : Int) : Int := cfdMp z + (if cfdMp z < 10 then 3 else -9)

def cfdDay (z : Int) : Int :=
  doyOfDoe (doeOfDays z) - (153 * cfdMp z + 2) / 5 + 1

def cfdYear (z : Int) : Int :=
  if cfdMonth z ≤ 2 then yoeOfDoe (doeOfDays z) + eraOfDays z * 400 + 1
  else yoeOfDoe (doeOfDays z) + eraOfDays z * 400

/-- Civil date of day number `z` (inverse of `daysFromCivil`). -/
def civilFromDays (z : Int) : Date :=
  ⟨cfdYear z, cfdMonth z, cfdDay z⟩

/-- Day number of a date. -/
def Date.dayNumber (d : Date) : Int := daysFromCivil d.year d.month d.day

/-- Day of week, Sunday = 0 .. Saturday = 6.  ECMA-262: the JavaScript
epoch 1970-01-01 was a Thursday, and `WeekDay(t) = (Day(t) + 4) mod 7`. -/
def Date.dayOfWeek (d : Date) : Int := (d.dayNumber + 4) % 7

/-! Bounds for the year-of-era formula.  The only part of the
roundtrip that is not linear bookkeeping: for a day of era in
`[0, 146096]`, the computed year of era is in `[0, 399]` and the days
preceding that year of era bracket the given day of era to within a
year.  Settled by exhausting the 400 possible years of era. -/

set_option maxHeartbeats 16000000 in
theorem yoe_doy_bounds (doe e f g yoe : Int)
    (hdoe : 0 ≤ doe ∧ doe ≤ 146096)
    (he : e = doe / 1460) (hf : f = doe / 36524) (hg : g = doe / 146096)
    (hyoe : yoe = (doe - e + f - g) / 365) :
    0 ≤ yoe ∧ yoe ≤ 399 ∧
    365 * yoe + yoe / 4 - yoe / 100 ≤ doe ∧
    doe - (365 * yoe + yoe / 4 - yoe / 100) ≤ 365 := by
  have hy0 : 0 ≤ yoe := by omega
  have hy1 : yoe ≤ 399 := by omega
  refine ⟨hy0, hy1, ?_⟩
  interval_cases yoe <;> omega

theorem doeOfDays_bounds (z : Int) :
    0 ≤ doeOfDays z ∧ doeOfDays z ≤ 146096 := by
  simp only [doeOfDays, eraOfDays]; omega

/-- The March-based month and day-of-month computed from a day of year
map back to that day of year. -/
theorem dfcDoy_cfd (doy : Int) (h0 : 0 ≤ doy) (h1 : doy ≤ 365) :
    dfcDoy (mpOfDoy doy + (if mpOfDoy doy < 10 then 3 else -9))
      (doy - (153 * mpOfDoy doy + 2) / 5 + 1) = doy := by
  simp only [dfcDoy, mpOfDoy]
  split_ifs <;> omega

/-- The January-and-February year adjustment undoes the adjustment made
when assembling the civil year. -/
theorem dfcYAdj_cfd (z : Int) :
    dfcYAdj (cfdYear z) (cfdMonth z) =
      yoeOfDoe (doeOfDays z) + eraOfDays z * 400 := by
  simp only [dfcYAdj, cfdYear]
  split_ifs <;> omega

/-- The date-to-day-number conversion inverts the day-number-to-date
conversion on every day number. -/
theorem daysFromCivil_civilFromDays (z : Int) :
    daysFromCivil (civilFromDays z).year (civilFromDays z).month
      (civilFromDays z).day = z := by
  have hdoe := doeOfDays_bounds z
  have hb := yoe_doy_bounds (doeOfDays z) (doeOfDays z / 1460)
    (doeOfDays z / 36524) (doeOfDays z / 146096) (yoeOfDoe (doeOfDays z))
    hdoe rfl rfl rfl rfl
  have hdoy : dfcDoy (cfdMonth z) (cfdDay z) = doyOfDoe (doeOfDays z) := by
    have := dfcDoy_cfd (doyOfDoe (doeOfDays z))
      (by simp only [doyOfDoe]; omega) (by simp only [doyOfDoe]; omega)
    simpa only [cfdMonth, cfdDay, cfdMp] using this
  have hz : doeOfDays z = z + 719468 - eraOfDays z * 146097 := by
    simp only [doeOfDays]
  have hdy : doyOfDoe (doeOfDays z) =
      doeOfDays z - (365 * yoeOfDoe (doeOfDays z) +
        yoeOfDoe (doeOfDays z) / 4 - yoeOfDoe (doeOfDays z) / 100) := rfl
  have h400 : (400 : Int) ≠ 0 := by norm_num
  have hf : (yoeOfDoe (doeOfDays z) + eraOfDays z * 400) / 400 =
      eraOfDays z := by
    rw [Int.add_mul_ediv_right _ _ h400,
      Int.ediv_eq_zero_of_lt hb.1 (by omega)]
    omega
  have hback : yoeOfDoe (doeOfDays z) + eraOfDays z * 400 -
      eraOfDays z * 400 = yoeOfDoe (doeOfDays z) := by ring
  simp only [civilFromDays, daysFromCivil, dfcEra, dfcYoe, dfcDoe,
    dfcYAdj_cfd, hdoy, hf, hback]
  omega

/-- `daysFromCivil` is affine in the day-of-month argument (for a fixed
year and month); this is what makes the `setDate` call in `getWeekStart`
an exact day-number shift. -/
theorem daysFromCivil_day_shift (y m d : Int) :
    daysFromCivil y m d = daysFromCivil y m 1 + (d - 1) := by
  simp only [daysFromCivil, dfcDoe, dfcDoy]; omega

/-! ## The week-start computation (src/server.js, getWeekStart)

```js
function getWeekStart(dateStr) {
    const date = new Date(dateStr);
    const day = date.getDay(); // 0=Sun, 1=Mon, ...
    const diff = date.getDate() - day + (day === 0 ? -6 : 1); // Adjust to Monday
    const weekStart = new Date(date);
    weekStart.setDate(diff);
    return weekStart.toISOString().split(String.fromCharCode(84))[0];
}
```

For an ISO date string, `new Date` yields UTC midnight of that date, so
`getDay` is the day of week and `getDate` the day of month of the parsed
date.  Per ECMA-262, `setDate(diff)` moves the date to
`MakeDay(year, month, 1) + diff - 1`, and `toISOString` renders the
civil date of the resulting (midnight) time value.
-/

def getWeekStart (dt : Date) : Date :=
  civilFromDays (daysFromCivil dt.year dt.month 1 +
    ((dt.day - dt.dayOfWeek + (if dt.dayOfWeek = 0 then -6 else 1)) - 1))

/-- The offset named by the spec: `dow == 0 ? -6 : 1 - dow`. -/
def weekOffset (dt : Date) : Int :=
  if dt.dayOfWeek = 0 then -6 else 1 - dt.dayOfWeek

/-- Day number of the Monday of the Monday-to-Sunday week containing day
number `z` (Monday is the unique day with `(z + 4) % 7 = 1` in the span
`[mondayOf z, mondayOf z + 6]`). -/
def mondayOf (z : Int) : Int := z - (z + 3) % 7

/-- Two dates lie in the same Monday-to-Sunday week. -/
def sameWeek (a b : Date) : Prop := mondayOf a.dayNumber = mondayOf b.dayNumber

instance (a b : Date) : Decidable (sameWeek a b) := by
  unfold sameWeek; infer_instance

theorem getWeekStart_eq_mondayOf (dt : Date) :
    getWeekStart dt = civilFromDays (mondayOf dt.dayNumber) := by
  have h := daysFromCivil_day_shift dt.year dt.month dt.day
  simp only [getWeekStart, mondayOf, Date.dayNumber, Date.dayOfWeek]
  simp only [Date.dayNumber] at *
  by_cases h0 : (daysFromCivil dt.year dt.month dt.day + 4) % 7 = 0 <;>
    simp only [h0, if_true, if_false, if_pos, if_neg, not_false_iff] <;>
    congr 1 <;> omega

/-! ## JSON values, records and collections

A submitted `sign_id` is whatever JSON value the request body carried;
the server uses it verbatim, so number and string ids are distinct keys.
MongoDB equality between a number and a string is always false, and the
body of a JSON request can never contain a NaN, so a `parseInt` that
produced NaN matches no stored record.
-/

inductive JValue where
  | num : Int → JValue
  | str : String → JValue
deriving DecidableEq, Repr

/-- JavaScript truthiness of the modelled JSON values (0 and the empty
string are falsy). -/
def JValue.truthy : JValue → Bool
  | .num n => n != 0
  | .str s => s != ""

/-- A document of the daily_horoscopes collection, unique compound index
(sign_id, horoscope_date). -/
structure DailyRecord where
  sign_id : JValue
  horoscope_date : Date
  sign_name : String
  symbol : String
  daily_horoscope : String
deriving DecidableEq, Repr

/-- A document of the weekly_horoscopes collection, unique compound index
(sign_id, week_start_date). -/
structure WeeklyRecord where
  sign_id : JValue
  week_start_date : Date
  sign_name : String
  symbol : String
  weekly_horoscope : String
deriving DecidableEq, Repr

/-- The persistent state: the two MongoDB collections, each modelled as
a list of documents in insertion order. -/
structure DB where
  daily : List DailyRecord
  weekly : List WeeklyRecord
deriving DecidableEq, Repr

/-- Apply `f` to the first element satisfying `p` (MongoDB `updateOne`
updates at most one matching document). -/
def updateFirst {α : Type} : List α → (α → Bool) → (α → α) → List α
  | [], _, _ => []
  | r :: rs, p, f => if p r then f r :: rs else r :: updateFirst rs p f

/-- `updateOne(filter, set, upsert: true)`: overwrite the first document
matching the filter, or append a fresh document if none matches. -/
def upsertBy {α : Type} (l : List α) (p : α → Bool) (f : α → α) (mk : α) :
    List α :=
  if l.any p then updateFirst l p f else l ++ [mk]

def dailyKeyMatch (sid : JValue) (hdate : Date) (r : DailyRecord) : Bool :=
  r.sign_id == sid && r.horoscope_date == hdate

def weeklyKeyMatch (sid : JValue) (ws : Date) (r : WeeklyRecord) : Bool :=
  r.sign_id == sid && r.week_start_date == ws

/-- The daily upsert of the POST handler: filter
`{sign_id, horoscope_date}`, `$set {sign_name, symbol, daily_horoscope,
horoscope_date}`. -/
def upsertDaily (l : List DailyRecord) (sid : JValue) (hdate : Date)
    (name sym text : String) : List DailyRecord :=
  upsertBy l (dailyKeyMatch sid hdate)
    (fun r => { r with sign_name := name, symbol := sym,
                       daily_horoscope := text, horoscope_date := hdate })
    ⟨sid, hdate, name, sym, text⟩

/-- The weekly upsert of the POST handler: filter
`{sign_id, week_start_date}`, `$set {sign_name, symbol,
weekly_horoscope, week_start_date}`. -/
def upsertWeekly (l : List WeeklyRecord) (sid : JValue) (ws : Date)
    (name sym text : String) : List WeeklyRecord :=
  upsertBy l (weeklyKeyMatch sid ws)
    (fun r => { r with sign_name := name, symbol := sym,
                       weekly_horoscope := text, week_start_date := ws })
    ⟨sid, ws, name, sym, text⟩

/-! ## The POST /api/horoscopes handler -/

/-- The request body: absent JSON fields are `none`.  String-typed
fields are modelled as strings, the date field as a parsed calendar
date (an empty or missing date string is `none`). -/
structure SubmitBody where
  sign_id : Option JValue
  sign_name : Option String
  symbol : Option String
  daily_horoscope : Option String
  weekly_horoscope : Option String
  horoscope_date : Option Date
deriving DecidableEq, Repr

/-- Per-kind outcome in a successful submit response: the message and
whether the upsert inserted a fresh document (`insertId`) or updated an
existing one (the literal text `updated`). -/
structure KindResult where
  message : String
  created : Bool
deriving DecidableEq, Repr

structure SubmitResults where
  daily : Option KindResult
  weekly : Option KindResult
deriving DecidableEq, Repr

/-- HTTP outcome of the POST handler: 200 with message and results,
400 for failed validation, 500 when a store operation throws. -/
inductive SubmitResponse where
  | ok : String → SubmitResults → SubmitResponse
  | badRequest : String → SubmitResponse
  | serverError : String → SubmitResponse
deriving DecidableEq, Repr

def validationMsg : String :=
  "Missing required fields (sign_id, sign_name, symbol, horoscope_date)"

def insertFailMsg : String := "Database insert failed"

def successMsg : String := "Horoscope(s) inserted/updated successfully"

def dailyOkMsg : String := "Daily horoscope inserted/updated successfully"

def weeklyOkMsg : String := "Weekly horoscope inserted/updated successfully"

def notFoundMsg : String := "Sign not found for this date/type"

def fetchFailMsg : String := "Database fetch failed"

/-- The POST /api/horoscopes handler.  `dailyFails` / `weeklyFails`
inject a store failure (a thrown `updateOne`); the handler wraps both
upserts in a single try/catch, so the first failure is caught and
answered with one 500 response.  Returns the response together with the
state after the writes that committed. -/
def submit (b : SubmitBody) (dailyFails weeklyFails : Bool) (db : DB) :
    SubmitResponse × DB :=
  match b.sign_id, b.sign_name, b.symbol, b.horoscope_date with
  | some sid, some name, some sym, some hdate =>
    if sid.truthy && name != "" && sym != "" then
      let dtext := b.daily_horoscope.getD ""
      let wtext := b.weekly_horoscope.getD ""
      if dtext != "" then
        if dailyFails then (.serverError insertFailMsg, db)
        else
          let dres : KindResult :=
            ⟨dailyOkMsg, !(db.daily.any (dailyKeyMatch sid hdate))⟩
          let db1 : DB := ⟨upsertDaily db.daily sid hdate name sym dtext,
                           db.weekly⟩
          if wtext != "" then
            if weeklyFails then (.serverError insertFailMsg, db1)
            else
              let ws := getWeekStart hdate
              let wres : KindResult :=
                ⟨weeklyOkMsg, !(db1.weekly.any (weeklyKeyMatch sid ws))⟩
              (.ok successMsg ⟨some dres, some wres⟩,
               ⟨db1.daily, upsertWeekly db1.weekly sid ws name sym wtext⟩)
          else (.ok successMsg ⟨some dres, none⟩, db1)
      else
        if wtext != "" then
          if weeklyFails then (.serverError insertFailMsg, db)
          else
            let ws := getWeekStart hdate
            let wres : KindResult :=
              ⟨weeklyOkMsg, !(db.weekly.any (weeklyKeyMatch sid ws))⟩
            (.ok successMsg ⟨none, some wres⟩,
             ⟨db.daily, upsertWeekly db.weekly sid ws name sym wtext⟩)
        else (.ok successMsg ⟨none, none⟩, db)
    else (.badRequest validationMsg, db)
  | _, _, _, _ => (.badRequest validationMsg, db)

/-! ## The GET handlers -/

/-- Leading digits of a character list as a number. -/
def digitsVal (cs : List Char) : Int :=
  cs.foldl (fun a c => a * 10 + (Int.ofNat c.toNat - 48)) 0

def parseSign (cs : List Char) (neg : Bool) : Option Int :=
  let ds := cs.takeWhile Char.isDigit
  if ds.isEmpty then none
  else some ((if neg then -1 else 1) * digitsVal ds)

/-- JavaScript `parseInt` on a path segment: optional sign, then the
longest digit prefix; `none` models the NaN result when no digit is
found. -/
def parseIntJS (s : String) : Option Int :=
  match s.data with
  | [] => none
  | c :: rest =>
    if c = '-' then parseSign rest true
    else if c = '+' then parseSign rest false
    else parseSign (c :: rest) false

/-- The MongoDB filter `{sign_id: p}` where `p` came from `parseInt`:
NaN (`none`) equals no JSON-derived value. -/
def signQueryMatches (q : Option Int) (v : JValue) : Bool :=
  match q with
  | some n => v == .num n
  | none => false

/-- A row of a fetch response, shaped like the MySQL variant: both text
fields are always present, a field the collection does not store is
defaulted to the empty string. -/
structure HoroscopeView where
  id : JValue
  sign_name : String
  symbol : String
  daily_horoscope : String
  weekly_horoscope : String
  horoscope_date : Date
deriving DecidableEq, Repr

/-- HTTP outcome of GET /api/horoscopes/:signId.  The constructor space
of the HTTP boundary: the handler itself never produces `badRequest`,
and `serverError` only on a thrown store read (not injected here). -/
inductive FetchResponse where
  | ok : HoroscopeView → FetchResponse
  | badRequest : String → FetchResponse
  | notFound : String → FetchResponse
  | serverError : String → FetchResponse
deriving DecidableEq, Repr

/-- GET /api/horoscopes/:signId with query date (defaulting to today)
and type (any value other than weekly reads the daily collection). -/
def fetchOne (signIdParam : String) (dateQ : Option Date)
    (typeQ : Option String) (today : Date) (db : DB) : FetchResponse :=
  let signId := parseIntJS signIdParam
  let date := dateQ.getD today
  let t := typeQ.getD "daily"
  if t == "weekly" then
    match db.weekly.find? (fun r =>
        signQueryMatches signId r.sign_id &&
        r.week_start_date == getWeekStart date) with
    | none => .notFound notFoundMsg
    | some r => .ok ⟨r.sign_id, r.sign_name, r.symbol, "",
                     r.weekly_horoscope, r.week_start_date⟩
  else
    match db.daily.find? (fun r =>
        signQueryMatches signId r.sign_id && r.horoscope_date == date) with
    | none => .notFound notFoundMsg
    | some r => .ok ⟨r.sign_id, r.sign_name, r.symbol, r.daily_horoscope,
                     "", r.horoscope_date⟩

/-- Ascending MongoDB sort order on sign_id values: numbers sort before
strings, numbers by value, strings lexicographically. -/
def signLe : JValue → JValue → Prop
  | .num a, .num b => a ≤ b
  | .num _, .str _ => True
  | .str _, .num _ => False
  | .str a, .str b => a ≤ b

instance : DecidableRel signLe := fun a b => by
  cases a <;> cases b <;> simp only [signLe] <;> infer_instance

def dailyLe (a b : DailyRecord) : Prop := signLe a.sign_id b.sign_id

def weeklyLe (a b : WeeklyRecord) : Prop := signLe a.sign_id b.sign_id

instance : DecidableRel dailyLe := fun a b => by
  unfold dailyLe; infer_instance

instance : DecidableRel weeklyLe := fun a b => by
  unfold weeklyLe; infer_instance

instance : IsTotal JValue signLe where
  total := by
    intro a b
    cases a <;> cases b <;> simp only [signLe] <;> first
      | exact le_total _ _
      | simp

instance : IsTrans JValue signLe where
  trans := by
    intro a b c hab hbc
    cases a <;> cases b <;> cases c <;> simp only [signLe] at * <;>
      exact le_trans hab hbc

instance : IsTotal DailyRecord dailyLe where
  total := fun a b => IsTotal.total (r := signLe) a.sign_id b.sign_id

instance : IsTrans DailyRecord dailyLe where
  trans := fun _ _ _ hab hbc => Trans.trans (r := signLe) hab hbc

instance : IsTotal WeeklyRecord weeklyLe where
  total := fun a b => IsTotal.total (r := signLe) a.sign_id b.sign_id

instance : IsTrans WeeklyRecord weeklyLe where
  trans := fun _ _ _ hab hbc => Trans.trans (r := signLe) hab hbc

def dailyView (r : DailyRecord) : HoroscopeView :=
  ⟨r.sign_id, r.sign_name, r.symbol, r.daily_horoscope, "",
   r.horoscope_date⟩

def weeklyView (r : WeeklyRecord) : HoroscopeView :=
  ⟨r.sign_id, r.sign_name, r.symbol, "", r.weekly_horoscope,
   r.week_start_date⟩

/-- HTTP outcome of GET /api/horoscopes: 200 with a (possibly empty)
array, or 500 on a thrown store read (not injected here). -/
inductive FetchAllResponse where
  | ok : List HoroscopeView → FetchAllResponse
  | serverError : String → FetchAllResponse
deriving DecidableEq, Repr

/-- GET /api/horoscopes: find by period value, sort ascending by
sign_id, format.  `List.insertionSort` models the stable MongoDB
sort. -/
def fetchAll (dateQ : Option Date) (typeQ : Option String) (today : Date)
    (db : DB) : FetchAllResponse :=
  let date := dateQ.getD today
  let t := typeQ.getD "daily"
  if t == "weekly" then
    .ok (((db.weekly.filter (fun r =>
        r.week_start_date == getWeekStart date)).insertionSort
          weeklyLe).map weeklyView)
  else
    .ok (((db.daily.filter (fun r =>
        r.horoscope_date == date)).insertionSort dailyLe).map dailyView)

/-! ## Store lemmas -/

theorem upsertBy_cons_pos {α : Type} (r : α) (rs : List α) (p : α → Bool)
    (f : α → α) (mk : α) (hp : p r = true) :
    upsertBy (r :: rs) p f mk = f r :: rs := by
  simp [upsertBy, updateFirst, hp, List.any_cons]

theorem upsertBy_cons_neg_any {α : Type} (r : α) (rs : List α) (p : α → Bool)
    (f : α → α) (mk : α) (hp : p r = false) (ha : rs.any p = true) :
    upsertBy (r :: rs) p f mk = r :: upsertBy rs p f mk := by
  simp [upsertBy, updateFirst, hp, List.any_cons, ha]

theorem upsertBy_cons_neg_none {α : Type} (r : α) (rs : List α) (p : α → Bool)
    (f : α → α) (mk : α) (hp : p r = false) (ha : rs.any p = false) :
    upsertBy (r :: rs) p f mk = (r :: rs) ++ [mk] := by
  simp [upsertBy, List.any_cons, hp, ha]

/-- Every document of an upserted collection is an original document or
the upserted one (the setter rewrites a key-matching document to exactly
the upserted document). -/
theorem mem_upsertBy {α : Type} {p : α → Bool} {f : α → α} {mk : α}
    (hf : ∀ r, p r = true → f r = mk) :
    ∀ (l : List α), ∀ x ∈ upsertBy l p f mk, x ∈ l ∨ x = mk := by
  intro l
  induction l with
  | nil =>
    intro x hx
    simp [upsertBy] at hx
    exact Or.inr hx
  | cons r rs ih =>
    intro x hx
    cases hp : p r with
    | true =>
      rw [upsertBy_cons_pos r rs p f mk hp] at hx
      rcases List.mem_cons.mp hx with h1 | h1
      · exact Or.inr (h1.trans (hf r hp))
      · exact Or.inl (List.mem_cons_of_mem _ h1)
    | false =>
      cases ha : rs.any p with
      | true =>
        rw [upsertBy_cons_neg_any r rs p f mk hp ha] at hx
        rcases List.mem_cons.mp hx with h1 | h1
        · exact Or.inl (h1 ▸ List.mem_cons_self _ _)
        · rcases ih x h1 with h2 | h2
          · exact Or.inl (List.mem_cons_of_mem _ h2)
          · exact Or.inr h2
      | false =>
        rw [upsertBy_cons_neg_none r rs p f mk hp ha] at hx
        rcases List.mem_append.mp hx with h1 | h1
        · exact Or.inl h1
        · exact Or.inr (by simpa using h1)

/-- The upserted document is in the upserted collection. -/
theorem mk_mem_upsertBy {α : Type} {p : α → Bool} {f : α → α} {mk : α}
    (hf : ∀ r, p r = true → f r = mk) (l : List α) :
    mk ∈ upsertBy l p f mk := by
  induction l with
  | nil => simp [upsertBy]
  | cons r rs ih =>
    cases hp : p r with
    | true =>
      rw [upsertBy_cons_pos r rs p f mk hp, hf r hp]
      exact List.mem_cons_self _ _
    | false =>
      cases ha : rs.any p with
      | true =>
        rw [upsertBy_cons_neg_any r rs p f mk hp ha]
        exact List.mem_cons_of_mem _ ih
      | false =>
        rw [upsertBy_cons_neg_none r rs p f mk hp ha]
        simp

/-- On a collection whose unique index holds (at most one document per
key), an upsert leaves exactly one document with the upserted key: the
upserted document. -/
theorem filter_upsertBy {α : Type} {p : α → Bool} {f : α → α} {mk : α}
    (hf : ∀ r, p r = true → f r = mk) (hmk : p mk = true) :
    ∀ (l : List α), (l.filter p).length ≤ 1 →
      (upsertBy l p f mk).filter p = [mk] := by
  intro l
  induction l with
  | nil => intro _; simp [upsertBy, hmk]
  | cons r rs ih =>
    intro hlen
    cases hp : p r with
    | true =>
      have hfil : rs.filter p = [] := by
        rw [List.filter_cons_of_pos (by simp [hp])] at hlen
        simp only [List.length_cons] at hlen
        exact List.length_eq_zero.mp (by omega)
      rw [upsertBy_cons_pos r rs p f mk hp,
        List.filter_cons_of_pos (by simp [hf r hp, hmk]), hfil, hf r hp]
    | false =>
      have hlen2 : (rs.filter p).length ≤ 1 := by
        rwa [List.filter_cons_of_neg (by simp [hp])] at hlen
      cases ha : rs.any p with
      | true =>
        rw [upsertBy_cons_neg_any r rs p f mk hp ha,
          List.filter_cons_of_neg (by simp [hp])]
        exact ih hlen2
      | false =>
        have hfil : rs.filter p = [] := by
          rw [List.filter_eq_nil_iff]
          intro a hal
          have := (List.any_eq_false.mp ha) a hal
          simp [this]
        rw [upsertBy_cons_neg_none r rs p f mk hp ha, List.filter_append,
          List.filter_cons_of_neg (by simp [hp]), hfil]
        simp [hmk]

/-! ## Handler unfolding lemmas -/

/-- A valid submit carrying only a weekly text upserts exactly the
weekly collection. -/
theorem submit_weekly_only (sid : JValue) (hsid : sid.truthy = true)
    (name sym text : String) (hn : name ≠ "") (hs : sym ≠ "") (ht : text ≠ "")
    (hdate : Date) (db : DB) :
    submit ⟨some sid, some name, some sym, none, some text, some hdate⟩
        false false db =
      (.ok successMsg ⟨none, some ⟨weeklyOkMsg,
          !(db.weekly.any (weeklyKeyMatch sid (getWeekStart hdate)))⟩⟩,
       ⟨db.daily, upsertWeekly db.weekly sid (getWeekStart hdate)
          name sym text⟩) := by
  simp [submit, hsid, hn, hs, ht]

/-- A valid submit carrying only a daily text upserts exactly the daily
collection. -/
theorem submit_daily_only (sid : JValue) (hsid : sid.truthy = true)
    (name sym text : String) (hn : name ≠ "") (hs : sym ≠ "") (ht : text ≠ "")
    (hdate : Date) (db : DB) :
    submit ⟨some sid, some name, some sym, some text, none, some hdate⟩
        false false db =
      (.ok successMsg ⟨some ⟨dailyOkMsg,
          !(db.daily.any (dailyKeyMatch sid hdate))⟩, none⟩,
       ⟨upsertDaily db.daily sid hdate name sym text, db.weekly⟩) := by
  simp [submit, hsid, hn, hs, ht]

theorem weeklySet_eq_mk (sid : JValue) (ws : Date) (name sym text : String) :
    ∀ r : WeeklyRecord, weeklyKeyMatch sid ws r = true →
      ({ r with sign_name := name, symbol := sym, weekly_horoscope := text,
                week_start_date := ws } : WeeklyRecord) =
        ⟨sid, ws, name, sym, text⟩ := by
  intro r hr
  simp only [weeklyKeyMatch, Bool.and_eq_true, beq_iff_eq] at hr
  cases r
  simp_all

theorem dailySet_eq_mk (sid : JValue) (hdate : Date) (name sym text : String) :
    ∀ r : DailyRecord, dailyKeyMatch sid hdate r = true →
      ({ r with sign_name := name, symbol := sym, daily_horoscope := text,
                horoscope_date := hdate } : DailyRecord) =
        ⟨sid, hdate, name, sym, text⟩ := by
  intro r hr
  simp only [dailyKeyMatch, Bool.and_eq_true, beq_iff_eq] at hr
  cases r
  simp_all

/-! ## Claims -/

/-- Claim C1: for every valid calendar date d, getWeekStart d is the
input date plus the offset (dow equal 0 gives -6, otherwise 1 - dow)
days, date-only; its day number is the Monday of the Monday-to-Sunday
week containing d, so the result is always a Monday, across year
boundaries and leap-day alike. -/
theorem getWeekStart_is_monday (d : Date) (h : d.valid) :
    getWeekStart d = civilFromDays (d.dayNumber + weekOffset d) ∧
    (getWeekStart d).dayNumber = mondayOf d.dayNumber ∧
    (getWeekStart d).dayOfWeek = 1 ∧
    mondayOf d.dayNumber ≤ d.dayNumber ∧
    d.dayNumber ≤ mondayOf d.dayNumber + 6 := by
  have h1 := getWeekStart_eq_mondayOf d
  have h2 : (getWeekStart d).dayNumber = mondayOf d.dayNumber := by
    rw [h1]
    exact daysFromCivil_civilFromDays (mondayOf d.dayNumber)
  refine ⟨?_, h2, ?_, ?_, ?_⟩
  · rw [h1]
    congr 1
    simp only [mondayOf, weekOffset, Date.dayOfWeek]
    split_ifs <;> omega
  · simp only [Date.dayOfWeek]
    rw [h2]
    simp only [mondayOf]
    omega
  · simp only [mondayOf]; omega
  · simp only [mondayOf]; omega

theorem getWeekStart_is_monday_witness :
    (⟨2024, 2, 29⟩ : Date).valid ∧ (getWeekStart ⟨2024, 2, 29⟩).dayOfWeek = 1 :=
  ⟨by decide, (getWeekStart_is_monday ⟨2024, 2, 29⟩ (by decide)).2.2.1⟩

/-- Claim C2: getWeekStart is idempotent on every valid calendar
date. -/
theorem getWeekStart_idempotent (d : Date) (h : d.valid) :
    getWeekStart (getWeekStart d) = getWeekStart d := by
  have h2 : (getWeekStart d).dayNumber = mondayOf d.dayNumber := by
    rw [getWeekStart_eq_mondayOf d]
    exact daysFromCivil_civilFromDays (mondayOf d.dayNumber)
  rw [getWeekStart_eq_mondayOf (getWeekStart d), h2,
    getWeekStart_eq_mondayOf d]
  congr 1
  simp only [mondayOf]
  omega

theorem getWeekStart_idempotent_witness :
    (⟨2024, 12, 31⟩ : Date).valid ∧
    getWeekStart (getWeekStart ⟨2024, 12, 31⟩) = getWeekStart ⟨2024, 12, 31⟩ :=
  ⟨by decide, getWeekStart_idempotent ⟨2024, 12, 31⟩ (by decide)⟩

theorem filter_upsertWeekly (l : List WeeklyRecord) (sid : JValue) (ws : Date)
    (name sym text : String)
    (hlen : (l.filter (weeklyKeyMatch sid ws)).length ≤ 1) :
    (upsertWeekly l sid ws name sym text).filter (weeklyKeyMatch sid ws) =
      [⟨sid, ws, name, sym, text⟩] :=
  filter_upsertBy (weeklySet_eq_mk sid ws name sym text)
    (by simp [weeklyKeyMatch]) l hlen

/-- Claim C3: two submits with weekly text for the same sign and dates
in the same Monday-to-Sunday week target the same weekly key
(sign_id, weekStart d1) = (sign_id, weekStart d2); under the collection
unique index, the second write overwrites and exactly one weekly record
remains for that key, carrying the second write's name, symbol and
text. -/
theorem submit_weekly_same_week (d1 d2 : Date) (h1 : d1.valid)
    (h2 : d2.valid) (hw : sameWeek d1 d2) (sid : JValue)
    (hsid : sid.truthy = true) (n1 s1 t1 n2 s2 t2 : String)
    (hn1 : n1 ≠ "") (hs1 : s1 ≠ "") (ht1 : t1 ≠ "")
    (hn2 : n2 ≠ "") (hs2 : s2 ≠ "") (ht2 : t2 ≠ "") (db : DB)
    (huniq : (db.weekly.filter
        (weeklyKeyMatch sid (getWeekStart d1))).length ≤ 1) :
    getWeekStart d1 = getWeekStart d2 ∧
    ((submit ⟨some sid, some n2, some s2, none, some t2, some d2⟩ false false
        (submit ⟨some sid, some n1, some s1, none, some t1, some d1⟩
          false false db).2).2).weekly.filter
        (weeklyKeyMatch sid (getWeekStart d1)) =
      [⟨sid, getWeekStart d1, n2, s2, t2⟩] := by
  have hkey : getWeekStart d1 = getWeekStart d2 := by
    rw [getWeekStart_eq_mondayOf d1, getWeekStart_eq_mondayOf d2, hw]
  refine ⟨hkey, ?_⟩
  rw [submit_weekly_only sid hsid n1 s1 t1 hn1 hs1 ht1 d1 db]
  rw [submit_weekly_only sid hsid n2 s2 t2 hn2 hs2 ht2 d2 _]
  dsimp only
  rw [← hkey]
  exact filter_upsertWeekly _ sid _ n2 s2 t2
    (by rw [filter_upsertWeekly db.weekly sid _ n1 s1 t1 huniq]; simp)

theorem submit_weekly_same_week_witness :
    sameWeek ⟨2024, 6, 10⟩ ⟨2024, 6, 14⟩ ∧
    getWeekStart ⟨2024, 6, 10⟩ = getWeekStart ⟨2024, 6, 14⟩ :=
  ⟨by decide,
   (submit_weekly_same_week ⟨2024, 6, 10⟩ ⟨2024, 6, 14⟩ (by decide) (by decide)
      (by decide) (.num 1) (by decide) "Aries" "Ar" "first" "Aries" "Ar"
      "second" (by decide) (by decide) (by decide) (by decide) (by decide)
      (by decide) ⟨[], []⟩ (by decide)).1⟩

/-- Claim C4: a submit with any of sign_id, sign_name, symbol or
horoscope_date missing or empty answers 400 with the validation message
and attempts no write: the stored state is returned unchanged. -/
theorem submit_missing_field_rejected (b : SubmitBody) (df wf : Bool)
    (db : DB)
    (h : b.sign_id = none ∨ b.sign_id = some (.str "") ∨
         b.sign_name = none ∨ b.sign_name = some "" ∨
         b.symbol = none ∨ b.symbol = some "" ∨
         b.horoscope_date = none) :
    submit b df wf db = (.badRequest validationMsg, db) := by
  obtain ⟨sid, name, sym, dt, wt, hd⟩ := b
  simp only at h
  rcases sid with _ | v <;> rcases name with _ | nm <;>
    rcases sym with _ | sy <;> rcases hd with _ | hdd <;>
    rcases h with h | h | h | h | h | h | h <;>
    simp_all [submit, JValue.truthy]

theorem submit_missing_field_rejected_witness :
    submit ⟨some (.num 1), none, some "Ar", some "x", none,
        some ⟨2024, 6, 12⟩⟩ true false ⟨[], []⟩ =
      (.badRequest validationMsg, ⟨[], []⟩) :=
  submit_missing_field_rejected _ true false ⟨[], []⟩
    (Or.inr (Or.inr (Or.inl rfl)))

/-- Claim C5, counterexample: a FetchOne with the non-numeric sign id
abc answers 404 NotFound (the NaN-filtered store lookup finds nothing),
not a ValidationError, even when the store holds records. -/
theorem fetchOne_nonNumeric_cex :
    fetchOne "abc" (some ⟨2024, 6, 12⟩) (some "daily") ⟨2024, 6, 12⟩
      ⟨[⟨.num 1, ⟨2024, 6, 12⟩, "Aries", "Ar", "Good day"⟩], []⟩ =
      .notFound notFoundMsg := by decide

/-- Claim C5, amended: the handler never validates the signId path
parameter; a non-numeric id parses to NaN, which matches no stored
record, so every such FetchOne answers 404 NotFound (never 400). -/
theorem fetchOne_nonNumeric_notFound (sp : String)
    (hp : parseIntJS sp = none) (dateQ : Option Date)
    (typeQ : Option String) (today : Date) (db : DB) :
    fetchOne sp dateQ typeQ today db = .notFound notFoundMsg := by
  simp only [fetchOne, hp]
  by_cases ht : (typeQ.getD "daily" == "weekly") = true
  · rw [if_pos ht]
    split
    · rfl
    · next r heq =>
      have h1 := List.find?_some heq
      simp [signQueryMatches] at h1
  · rw [if_neg ht]
    split
    · rfl
    · next r heq =>
      have h1 := List.find?_some heq
      simp [signQueryMatches] at h1

theorem fetchOne_nonNumeric_notFound_witness :
    fetchOne "abc" none none ⟨2024, 6, 12⟩ ⟨[], []⟩ =
      .notFound notFoundMsg :=
  fetchOne_nonNumeric_notFound "abc" (by decide) none none ⟨2024, 6, 12⟩
    ⟨[], []⟩

/-- Claim C6, counterexample: a submit carrying both texts whose daily
upsert succeeds and whose weekly upsert throws answers the single opaque
500 body (Database insert failed), reporting neither the daily success
nor the weekly failure, while the daily write has already persisted. -/
theorem submit_weekly_failure_cex :
    submit ⟨some (.num 1), some "Aries", some "Ar", some "Good day",
        some "Good week", some ⟨2024, 6, 12⟩⟩ false true ⟨[], []⟩ =
      (.serverError insertFailMsg,
       ⟨[⟨.num 1, ⟨2024, 6, 12⟩, "Aries", "Ar", "Good day"⟩], []⟩) := by
  decide

/-- Claim C6, amended: both upserts run inside one try/catch, so when
the daily upsert succeeds and the weekly upsert fails the handler
answers a single opaque 500 (Database insert failed) carrying no
per-kind outcome, and the committed daily write remains in the store. -/
theorem submit_weekly_failure_opaque (sid : JValue) (hsid : sid.truthy = true)
    (name sym dtext wtext : String) (hn : name ≠ "") (hs : sym ≠ "")
    (hd : dtext ≠ "") (hw : wtext ≠ "") (hdate : Date) (db : DB) :
    submit ⟨some sid, some name, some sym, some dtext, some wtext,
        some hdate⟩ false true db =
      (.serverError insertFailMsg,
       ⟨upsertDaily db.daily sid hdate name sym dtext, db.weekly⟩) := by
  simp [submit, hsid, hn, hs, hd, hw]

theorem submit_weekly_failure_opaque_witness :
    submit ⟨some (.num 2), some "Leo", some "Le", some "d", some "w",
        some ⟨2024, 1, 1⟩⟩ false true ⟨[], []⟩ =
      (.serverError insertFailMsg,
       ⟨upsertDaily ([] : List DailyRecord) (.num 2) ⟨2024, 1, 1⟩
          "Leo" "Le" "d", []⟩) :=
  submit_weekly_failure_opaque (.num 2) (by decide) "Leo" "Le" "d" "w"
    (by decide) (by decide) (by decide) (by decide) ⟨2024, 1, 1⟩ ⟨[], []⟩

/-- Claim C7: a FetchOne whose resolved key (exact date for daily, week
start for weekly, with a numeric sign id) matches no stored record
answers 404 NotFound, never an empty or default record. -/
theorem fetchOne_absent_notFound (sp : String) (n : Int)
    (hp : parseIntJS sp = some n) (date today : Date) (db : DB) :
    ((∀ r ∈ db.daily,
        ¬(r.sign_id = JValue.num n ∧ r.horoscope_date = date)) →
      fetchOne sp (some date) (some "daily") today db =
        .notFound notFoundMsg) ∧
    ((∀ r ∈ db.weekly,
        ¬(r.sign_id = JValue.num n ∧
          r.week_start_date = getWeekStart date)) →
      fetchOne sp (some date) (some "weekly") today db =
        .notFound notFoundMsg) := by
  constructor
  · intro h
    simp only [fetchOne, hp, Option.getD_some]
    rw [if_neg (by decide)]
    split
    · rfl
    · next r heq =>
      have hq := List.find?_some heq
      have hm := List.mem_of_find?_eq_some heq
      simp [signQueryMatches] at hq
      exact absurd ⟨hq.1, hq.2⟩ (h r hm)
  · intro h
    simp only [fetchOne, hp, Option.getD_some]
    rw [if_pos (by decide)]
    split
    · rfl
    · next r heq =>
      have hq := List.find?_some heq
      have hm := List.mem_of_find?_eq_some heq
      simp [signQueryMatches] at hq
      exact absurd ⟨hq.1, hq.2⟩ (h r hm)

theorem fetchOne_absent_notFound_witness :
    fetchOne "1" (some ⟨2024, 6, 12⟩) (some "daily") ⟨2024, 6, 12⟩
      ⟨[], []⟩ = .notFound notFoundMsg :=
  (fetchOne_absent_notFound "1" 1 (by decide) ⟨2024, 6, 12⟩ ⟨2024, 6, 12⟩
    ⟨[], []⟩).1 (by simp)

/-- Claim C8: every successful FetchOne answers with both text fields
present, the non-requested kind's text being the empty string: a daily
(or defaulted) lookup has weekly_horoscope empty, a weekly lookup has
daily_horoscope empty. -/
theorem fetchOne_uniform_shape (sp : String) (dq : Option Date)
    (today : Date) (db : DB) :
    (∀ (t : String) (body : HoroscopeView), (t == "weekly") = false →
        fetchOne sp dq (some t) today db = .ok body →
        body.weekly_horoscope = "") ∧
    (∀ body : HoroscopeView,
        fetchOne sp dq (some "weekly") today db = .ok body →
        body.daily_horoscope = "") := by
  constructor
  · intro t body ht hok
    simp only [fetchOne] at hok
    rw [Option.getD_some, if_neg (by simp [ht])] at hok
    split at hok
    · exact absurd hok (by simp)
    · cases hok
      rfl
  · intro body hok
    simp only [fetchOne] at hok
    rw [Option.getD_some, if_pos (by decide)] at hok
    split at hok
    · exact absurd hok (by simp)
    · cases hok
      rfl

theorem fetchOne_uniform_shape_witness :
    (⟨JValue.num 1, "Aries", "Ar", "Good day", "",
        ⟨2024, 6, 12⟩⟩ : HoroscopeView).weekly_horoscope = "" :=
  (fetchOne_uniform_shape "1" (some ⟨2024, 6, 12⟩) ⟨2024, 6, 12⟩
      ⟨[⟨.num 1, ⟨2024, 6, 12⟩, "Aries", "Ar", "Good day"⟩], []⟩).1
    "daily" ⟨JValue.num 1, "Aries", "Ar", "Good day", "", ⟨2024, 6, 12⟩⟩
    (by decide) (by decide)

/-- Claim C9: FetchAll answers 200 with exactly the stored records of
the requested kind whose period value (the date for daily, its week
start for weekly) matches, sorted ascending by sign_id, and an empty
array, still 200, when none match. -/
theorem fetchAll_by_period (date today : Date) (db : DB) :
    (∃ ld, fetchAll (some date) (some "daily") today db =
        .ok (ld.map dailyView) ∧
      List.Perm ld (db.daily.filter (fun r => r.horoscope_date == date)) ∧
      ld.Sorted dailyLe ∧
      (db.daily.filter (fun r => r.horoscope_date == date) = [] →
        fetchAll (some date) (some "daily") today db = .ok [])) ∧
    (∃ lw, fetchAll (some date) (some "weekly") today db =
        .ok (lw.map weeklyView) ∧
      List.Perm lw (db.weekly.filter
        (fun r => r.week_start_date == getWeekStart date)) ∧
      lw.Sorted weeklyLe ∧
      (db.weekly.filter (fun r => r.week_start_date == getWeekStart date)
          = [] →
        fetchAll (some date) (some "weekly") today db = .ok [])) := by
  constructor
  · refine ⟨(db.daily.filter
        (fun r => r.horoscope_date == date)).insertionSort dailyLe,
      ?_, List.perm_insertionSort _ _, List.sorted_insertionSort _ _, ?_⟩
    · simp only [fetchAll, Option.getD_some]
      rw [if_neg (by decide)]
    · intro h
      simp only [fetchAll, Option.getD_some]
      rw [if_neg (by decide), h]
      rfl
  · refine ⟨(db.weekly.filter
        (fun r => r.week_start_date == getWeekStart date)).insertionSort
          weeklyLe,
      ?_, List.perm_insertionSort _ _, List.sorted_insertionSort _ _, ?_⟩
    · simp only [fetchAll, Option.getD_some]
      rw [if_pos (by decide)]
    · intro h
      simp only [fetchAll, Option.getD_some]
      rw [if_pos (by decide), h]
      rfl

theorem fetchAll_by_period_witness :
    fetchAll (some ⟨2024, 6, 12⟩) (some "daily") ⟨2024, 6, 12⟩ ⟨[], []⟩ =
      .ok [] := by
  obtain ⟨⟨ld, hok, hperm, hsort, hempty⟩, _⟩ :=
    fetchAll_by_period ⟨2024, 6, 12⟩ ⟨2024, 6, 12⟩ ⟨[], []⟩
  exact hempty rfl

/-- Claim C10: a submit stores the body's sign_id verbatim, while
FetchOne queries with parseInt of the path parameter; submitting a
daily text under the numeric-string sign id s therefore stores a
string-keyed record, and the round-trip FetchOne for the same sign and
date (given no pre-existing number-keyed record) answers 404
NotFound. -/
theorem submit_string_sid_fetch_miss (s : String) (n : Int)
    (hp : parseIntJS s = some n) (hs0 : s ≠ "")
    (name sym text : String) (hn : name ≠ "") (hsy : sym ≠ "")
    (ht : text ≠ "") (date today : Date) (db : DB)
    (hclean : ∀ r ∈ db.daily,
      ¬(r.sign_id = JValue.num n ∧ r.horoscope_date = date)) :
    (⟨JValue.str s, date, name, sym, text⟩ : DailyRecord) ∈
      ((submit ⟨some (.str s), some name, some sym, some text, none,
          some date⟩ false false db).2).daily ∧
    fetchOne s (some date) (some "daily") today
      ((submit ⟨some (.str s), some name, some sym, some text, none,
          some date⟩ false false db).2) = .notFound notFoundMsg := by
  have hsid : (JValue.str s).truthy = true := by
    simp [JValue.truthy, hs0]
  rw [submit_daily_only (.str s) hsid name sym text hn hsy ht date db]
  dsimp only
  constructor
  · exact mk_mem_upsertBy (dailySet_eq_mk (.str s) date name sym text)
      db.daily
  · simp only [fetchOne, hp, Option.getD_some]
    rw [if_neg (by decide)]
    split
    · rfl
    · next r heq =>
      have hq := List.find?_some heq
      have hm := List.mem_of_find?_eq_some heq
      rcases mem_upsertBy (dailySet_eq_mk (.str s) date name sym text)
          db.daily r hm with hr | hr
      · simp [signQueryMatches] at hq
        exact absurd ⟨hq.1, hq.2⟩ (hclean r hr)
      · subst hr
        simp [signQueryMatches] at hq

theorem submit_string_sid_fetch_miss_witness :
    (⟨JValue.str "1", ⟨2024, 6, 12⟩, "Aries", "Ar",
        "Good day"⟩ : DailyRecord) ∈
      ((submit ⟨some (.str "1"), some "Aries", some "Ar", some "Good day",
          none, some ⟨2024, 6, 12⟩⟩ false false ⟨[], []⟩).2).daily ∧
    fetchOne "1" (some ⟨2024, 6, 12⟩) (some "daily") ⟨2024, 6, 12⟩
      ((submit ⟨some (.str "1"), some "Aries", some "Ar", some "Good day",
          none, some ⟨2024, 6, 12⟩⟩ false false ⟨[], []⟩).2) =
      .notFound notFoundMsg :=
  submit_string_sid_fetch_miss "1" 1 (by decide) (by decide) "Aries" "Ar"
    "Good day" (by decide) (by decide) (by decide) ⟨2024, 6, 12⟩
    ⟨2024, 6, 12⟩ ⟨[], []⟩ (by simp)

end Horoscope
